import Mathlib

set_option linter.unnecessarySeqFocus false

/-!
Verification of the ForgeBreaker deck-distance and assumption/stress core.

The first part embeds the deck-distance calculator
(forgebreaker/analysis/distance.py together with the data model in
forgebreaker/models/collection.py and forgebreaker/models/deck.py).
Python dicts over card names become either functions from names to
quantities (the collection, read only through get_quantity) or ordered
association lists (a maindeck, whose insertion order drives the
iteration order of the calculator).  Python floats become rationals.

The second part models the stress simulator and breaking-point search.
Their backend implementation is absent from the repository snapshot
(only the frontend type declarations in frontend/src/api/client.ts and
the UI callers are present), so those definitions are modelled from the
specification text and carry a doc comment saying so.
-/

/-- Embeds Collection (models/collection.py): a collection of cards
stored by name with max quantity owned.  A Python dict read through
get with default 0 is embedded as a total function to quantities. -/
structure Collection where
  cards : String → Nat

/-- Embeds Collection.get_quantity: quantity owned of a specific card,
0 when absent. -/
def Collection.get_quantity (c : Collection) (card_name : String) : Nat :=
  c.cards card_name

/-- Embeds MetaDeck (models/deck.py): a competitive deck from the
metagame.  The maindeck and sideboard dicts are embedded as ordered
association lists, mirroring Python dict insertion order. -/
structure MetaDeck where
  name : String
  archetype : String
  format : String
  cards : List (String × Nat)
  sideboard : List (String × Nat)
deriving DecidableEq

/-- Embeds MetaDeck.maindeck_count: total cards in maindeck, the sum of
the values of the cards dict. -/
def MetaDeck.maindeck_count (d : MetaDeck) : Nat :=
  (d.cards.map (fun e => e.2)).sum

/-- Embeds WildcardCost (models/deck.py): wildcards needed to complete
a deck, one counter per rarity. -/
structure WildcardCost where
  common : Nat
  uncommon : Nat
  rare : Nat
  mythic : Nat
deriving DecidableEq

/-- Embeds WildcardCost.total: total wildcards needed. -/
def WildcardCost.total (w : WildcardCost) : Nat :=
  w.common + w.uncommon + w.rare + w.mythic

/-- Embeds WildcardCost.weighted_cost: weighted cost reflecting wildcard
scarcity, common 0.1, uncommon 0.25, rare 1.0, mythic 4.0. -/
def WildcardCost.weighted_cost (w : WildcardCost) : ℚ :=
  w.common * (0.1 : ℚ) + w.uncommon * (0.25 : ℚ)
    + w.rare * (1.0 : ℚ) + w.mythic * (4.0 : ℚ)

/-- Embeds DeckDistance (models/deck.py): how far a collection is from
completing a deck. -/
structure DeckDistance where
  deck : MetaDeck
  owned_cards : Nat
  missing_cards : Nat
  completion_percentage : ℚ
  wildcard_cost : WildcardCost
  missing_card_list : List (String × Nat × String)
deriving DecidableEq

/-- Embeds the DeckDistance.is_complete property: true when the user
owns all cards needed, i.e. missing_cards == 0. -/
def DeckDistance.is_complete (d : DeckDistance) : Bool :=
  d.missing_cards == 0

/-- Embeds the rarity_db argument (a Python dict from card name to a
rarity string) as a partial lookup. -/
abbrev RarityDB := String → Option String

/-- Embeds get_card_rarity (analysis/distance.py): look up card rarity
from the database, defaulting to "rare" if not found. -/
def get_card_rarity (card_name : String) (rarity_db : RarityDB) : String :=
  (rarity_db card_name).getD "rare"

/-- Embeds the if/elif chain of calculate_deck_distance that adds a
shortfall to the wildcard bucket matching the looked-up rarity string;
a string matching no bucket leaves the counters unchanged, exactly as
the Python elif chain falls through. -/
def addToBucket (w : WildcardCost) (rarity : String) (needed : Nat) : WildcardCost :=
  if rarity = "common" then { w with common := w.common + needed }
  else if rarity = "uncommon" then { w with uncommon := w.uncommon + needed }
  else if rarity = "rare" then { w with rare := w.rare + needed }
  else if rarity = "mythic" then { w with mythic := w.mythic + needed }
  else w

/-- Accumulator of the loop of calculate_deck_distance: the owned and
missing counters, the missing-card list and the wildcard counters. -/
structure DistState where
  owned : Nat
  missing : Nat
  missing_list : List (String × Nat × String)
  wildcards : WildcardCost
deriving DecidableEq

/-- Embeds one iteration of the loop of calculate_deck_distance over a
maindeck entry (card_name, required_qty). -/
def distStep (collection : Collection) (rarity_db : RarityDB)
    (st : DistState) (entry : String × Nat) : DistState :=
  let owned_qty := collection.get_quantity entry.1
  if owned_qty ≥ entry.2 then
    { st with owned := st.owned + entry.2 }
  else
    let needed := entry.2 - owned_qty
    let rarity := get_card_rarity entry.1 rarity_db
    { owned := st.owned + owned_qty
      missing := st.missing + needed
      missing_list := st.missing_list ++ [(entry.1, needed, rarity)]
      wildcards := addToBucket st.wildcards rarity needed }

/-- Runs the loop of calculate_deck_distance over the whole maindeck
starting from zeroed counters. -/
def distFold (collection : Collection) (rarity_db : RarityDB)
    (deck : MetaDeck) : DistState :=
  deck.cards.foldl (distStep collection rarity_db) ⟨0, 0, [], ⟨0, 0, 0, 0⟩⟩

/-- Embeds calculate_deck_distance (analysis/distance.py): calculate how
far a collection is from completing a deck. -/
def calculate_deck_distance (collection : Collection) (deck : MetaDeck)
    (rarity_db : RarityDB) : DeckDistance :=
  { deck := deck
    owned_cards := (distFold collection rarity_db deck).owned
    missing_cards := (distFold collection rarity_db deck).missing
    completion_percentage :=
      if deck.maindeck_count > 0 then
        ((distFold collection rarity_db deck).owned : ℚ) / (deck.maindeck_count : ℚ)
      else 0
    wildcard_cost := (distFold collection rarity_db deck).wildcards
    missing_card_list := (distFold collection rarity_db deck).missing_list }

/-- Rarity strings recognized by the data model (spec section 3) and by
the wildcard bucket dispatch; load_rarity_mapping (scryfall loader)
normalizes every database value into this set. -/
def validRarity (r : String) : Prop :=
  r = "common" ∨ r = "uncommon" ∨ r = "rare" ∨ r = "mythic"

/-- Modelled from the spec: the qualitative health tier of an assumption
(spec section 3), enumerated healthy, warning, critical.  The backend
assumption/stress engine is not in the repository snapshot; only the
frontend declarations in frontend/src/api/client.ts name these tiers. -/
inductive Health where
  | healthy
  | warning
  | critical
deriving DecidableEq

/-- Severity rank of a health tier: healthy 0, warning 1, critical 2.
A health degradation is a strict increase of this rank. -/
def Health.severity : Health → Nat
  | .healthy => 0
  | .warning => 1
  | .critical => 2

/-- Modelled from the spec: the fixed closed set of assumption
categories (spec section 3). -/
inductive AssumptionCategory where
  | mana_curve
  | draw_consistency
  | key_cards
  | interaction_timing
deriving DecidableEq

/-- Modelled from the spec: a named heuristic claim about a decklist
(spec section 3).  List-valued assumptions (key cards) carry their card
list and use the count-based proxy observed_value for the three-way
health comparison, as spec section 4.2 prescribes. -/
structure Assumption where
  name : String
  category : AssumptionCategory
  observed_value : ℚ
  key_card_list : List String
  typical_range : ℚ × ℚ
  adjustable : Bool
deriving DecidableEq

/-- Modelled from the spec: the three-way comparison of an observed
value against a typical range (spec section 4.2): within range is
healthy, mildly outside (within the fixed 20 percent tolerance band
beyond the range bound) is warning, far outside is critical. -/
def health_of (v : ℚ) (range : ℚ × ℚ) : Health :=
  if range.1 ≤ v ∧ v ≤ range.2 then .healthy
  else if v < range.1 then
    if (4 / 5 : ℚ) * range.1 ≤ v then .warning else .critical
  else
    if v ≤ (6 / 5 : ℚ) * range.2 then .warning else .critical

/-- Modelled from the spec: the full catalog of assumptions for one
deck (spec section 3). -/
structure AssumptionSet where
  deck_name : String
  assumptions : List Assumption
deriving DecidableEq

/-- Fragility weight of one health tier: healthy 0, warning 1/2,
critical 1.  The spec leaves the exact weights an implementation
choice constrained to be monotone with criticals above warnings. -/
def healthWeight : Health → ℚ
  | .healthy => 0
  | .warning => 1 / 2
  | .critical => 1

/-- Modelled from the spec: overall fragility in the interval from 0
to 1 (spec section 4.2), the health-weighted count of non-healthy
assumptions divided by the number of assumptions, clamped at 1. -/
def fragility_of (hs : List Health) : ℚ :=
  if hs.length = 0 then 0
  else min 1 ((hs.map healthWeight).sum / (hs.length : ℚ))

/-- Modelled from the spec: the four stress types (spec section 3),
matching the StressType union in frontend/src/api/client.ts. -/
inductive StressType where
  | underperform
  | missing
  | delayed
  | hostile_meta
deriving DecidableEq

/-- Modelled from the spec: a stress request value object with type,
target card name (or the sentinel "all") and intensity in (0, 1]. -/
structure StressScenario where
  stress_type : StressType
  target : String
  intensity : ℚ
deriving DecidableEq

/-- Modelled from the spec: which assumptions a scenario can perturb
(spec section 4.3 table): underperform acts on key-card and
draw-consistency assumptions, missing on key-card assumptions holding
the target, delayed on mana-curve and draw-consistency assumptions,
hostile_meta on interaction-timing assumptions; an assumption that is
not adjustable is never perturbed. -/
def affects (scn : StressScenario) (a : Assumption) : Bool :=
  a.adjustable &&
    match scn.stress_type with
    | .underperform =>
        (a.category == .key_cards || a.category == .draw_consistency)
          && (scn.target == "all" || a.key_card_list.contains scn.target)
    | .missing =>
        a.category == .key_cards
          && (scn.target == "all" || a.key_card_list.contains scn.target)
    | .delayed =>
        a.category == .mana_curve || a.category == .draw_consistency
    | .hostile_meta => a.category == .interaction_timing

/-- Modelled from the spec: the deterministic value transform of each
stress type (spec section 4.3): count-like metrics are scaled by one
minus the intensity; the missing stress removes the target from the
effective key-card set, intensity modulating how many copies (up to
all 4) are considered missing. -/
def stressed_value_of (scn : StressScenario) (a : Assumption) : ℚ :=
  match scn.stress_type with
  | .underperform => a.observed_value * (1 - scn.intensity)
  | .missing =>
      if scn.target == "all" then 0
      else max (a.observed_value - ((⌈(4 : ℚ) * scn.intensity⌉ : ℤ) : ℚ)) 0
  | .delayed => a.observed_value * (1 - scn.intensity)
  | .hostile_meta => a.observed_value * (1 - scn.intensity)

/-- Modelled from the spec: the fixed violation threshold on intensity
(spec section 4.3 gives 0.5 as the example constant). -/
def violation_threshold : ℚ := 1 / 2

/-- Health of an assumption after a scenario: affected assumptions are
re-scored by the same three-way comparison on the stressed value,
others keep the health of their observed value. -/
def stressed_health_of (scn : StressScenario) (a : Assumption) : Health :=
  if affects scn a then health_of (stressed_value_of scn a) a.typical_range
  else health_of a.observed_value a.typical_range

/-- Modelled from the spec: a belief is violated when the health
degrades by at least one tier and the intensity reaches the violation
threshold, or when the missing stress runs at full intensity (spec
section 4.3). -/
def belief_violated_of (scn : StressScenario) (a : Assumption) : Bool :=
  affects scn a &&
    ((decide ((health_of a.observed_value a.typical_range).severity
          < (stressed_health_of scn a).severity)
        && decide (violation_threshold ≤ scn.intensity))
      || (scn.stress_type == .missing && decide (scn.intensity = 1)))

/-- Modelled from the spec: per-assumption outcome of one stress
scenario, as declared in frontend/src/api/client.ts. -/
structure StressedAssumption where
  name : String
  original_value : ℚ
  stressed_value : ℚ
  original_health : Health
  stressed_health : Health
  belief_violated : Bool
deriving DecidableEq

/-- Modelled from the spec: aggregate result of one stress scenario,
as declared in frontend/src/api/client.ts (semantic field set). -/
structure StressResult where
  original_fragility : ℚ
  stressed_fragility : ℚ
  fragility_change : ℚ
  affected_assumptions : List StressedAssumption
  assumption_violated : Bool
  violated_belief : String
deriving DecidableEq

/-- Modelled from the spec: apply_stress (spec section 4.3): recompute
stressed values and health for affected assumptions, recompute
fragility over the full set with affected assumptions using their
stressed health, and report violations.  Assumptions whose stressed
value equals their observed value are omitted from the affected list. -/
def apply_stress (aset : AssumptionSet) (scn : StressScenario) : StressResult :=
  let origF := fragility_of
    (aset.assumptions.map (fun a => health_of a.observed_value a.typical_range))
  let newF := fragility_of (aset.assumptions.map (fun a => stressed_health_of scn a))
  let affectedList := aset.assumptions.filter
    (fun a => affects scn a && !(stressed_value_of scn a == a.observed_value))
  let stressedList := affectedList.map (fun a =>
    { name := a.name
      original_value := a.observed_value
      stressed_value := stressed_value_of scn a
      original_health := health_of a.observed_value a.typical_range
      stressed_health := stressed_health_of scn a
      belief_violated := belief_violated_of scn a : StressedAssumption })
  { original_fragility := origF
    stressed_fragility := newF
    fragility_change := newF - origF
    affected_assumptions := stressedList
    assumption_violated := stressedList.any (fun sa => sa.belief_violated)
    violated_belief :=
      match stressedList.find? (fun sa => sa.belief_violated) with
      | some sa => sa.name
      | none => "None" }

/-- Modelled from the spec: result of the breaking-point search, as
declared in frontend/src/api/client.ts (semantic field set). -/
structure BreakingPointResult where
  most_vulnerable_belief : String
  failing_scenario : Option StressScenario
  exploration_insight : String
deriving DecidableEq

/-- Selects from a list of evaluated scenarios the first one with the
highest fragility_change (first wins ties). -/
def pickBest (l : List (StressScenario × StressResult)) :
    Option (StressScenario × StressResult) :=
  match l with
  | [] => none
  | x :: xs =>
      some (xs.foldl
        (fun best p => if best.2.fragility_change < p.2.fragility_change then p else best) x)

/-- Modelled from the spec: find_breaking_point (spec section 4.4):
evaluate every scenario of the catalog, prefer a violating result with
the highest fragility_change, and fall back to the scenario with the
single highest fragility_change, reporting "None identified". -/
def find_breaking_point (aset : AssumptionSet) (catalog : List StressScenario) :
    BreakingPointResult :=
  match pickBest ((catalog.map (fun s => (s, apply_stress aset s))).filter
      (fun p => p.2.assumption_violated)) with
  | some p =>
      { most_vulnerable_belief := p.2.violated_belief
        failing_scenario := some p.1
        exploration_insight := "A belief is violated under this scenario" }
  | none =>
      match pickBest (catalog.map (fun s => (s, apply_stress aset s))) with
      | some p =>
          { most_vulnerable_belief := "None identified"
            failing_scenario := some p.1
            exploration_insight := "No belief violated; highest fragility increase reported" }
      | none =>
          { most_vulnerable_belief := "None identified"
            failing_scenario := none
            exploration_insight := "Empty scenario catalog" }

/-- Concrete partial collection used by the worked examples: the full
Mono-Red Aggro playset except two Monastery Swiftspear. -/
def cPartial : Collection :=
  ⟨fun n => if n = "Lightning Bolt" then 4
    else if n = "Monastery Swiftspear" then 2
    else if n = "Mountain" then 20 else 0⟩

/-- Concrete complete collection covering the whole sample deck. -/
def cFull : Collection :=
  ⟨fun n => if n = "Lightning Bolt" then 4
    else if n = "Monastery Swiftspear" then 4
    else if n = "Mountain" then 20 else 0⟩

/-- Concrete empty collection. -/
def cZero : Collection := ⟨fun _ => 0⟩

/-- Concrete collection equal to cPartial on the sample deck cards plus
three copies of a card the deck does not play. -/
def cExtra : Collection :=
  ⟨fun n => if n = "Lightning Bolt" then 4
    else if n = "Monastery Swiftspear" then 2
    else if n = "Mountain" then 20
    else if n = "Counterspell" then 3 else 0⟩

/-- Concrete sample deck from the test fixtures of the repository. -/
def dAggro : MetaDeck :=
  ⟨"Mono-Red Aggro", "aggro", "standard",
    [("Lightning Bolt", 4), ("Monastery Swiftspear", 4), ("Mountain", 20)], []⟩

/-- Concrete deck with an empty maindeck. -/
def dEmpty : MetaDeck := ⟨"Empty Deck", "control", "standard", [], []⟩

/-- Concrete rarity database from the test fixtures of the repository. -/
def dbSample : RarityDB := fun n =>
  if n = "Lightning Bolt" then some "common"
  else if n = "Monastery Swiftspear" then some "uncommon"
  else if n = "Mountain" then some "common"
  else none

/-- Concrete empty rarity database: every lookup misses. -/
def dbNone : RarityDB := fun _ => none

/-- Concrete assumption set with a draw-consistency assumption whose
observed value sits above its typical range (30 lands against a 22 to
26 convention), scoring warning. -/
def asetCX : AssumptionSet :=
  ⟨"Azorius Control",
    [⟨"Land Count", .draw_consistency, 30, [], (22, 26), true⟩]⟩

/-- Concrete light underperform scenario over all targets. -/
def scnCX : StressScenario := ⟨.underperform, "all", 1 / 5⟩

/-- Concrete assumption set whose single assumption sits inside its
typical range. -/
def asetW8 : AssumptionSet :=
  ⟨"Mono-Red Aggro",
    [⟨"Land Count", .draw_consistency, 24, [], (22, 26), true⟩]⟩

/-- Concrete heavy underperform scenario over all targets. -/
def scnW8 : StressScenario := ⟨.underperform, "all", 3 / 4⟩

/-- Concrete assumption set with one healthy key-card assumption. -/
def asetW9 : AssumptionSet :=
  ⟨"Esper Midrange",
    [⟨"Must-Draw Cards", .key_cards, 4, ["Sheoldred, the Apocalypse"], (3, 5), true⟩]⟩

/-- Concrete full-intensity missing-card scenario over all targets. -/
def scnW9 : StressScenario := ⟨.missing, "all", 1⟩

theorem distFoldl_owned (c : Collection) (db : RarityDB) :
    ∀ (l : List (String × Nat)) (st : DistState),
      (l.foldl (distStep c db) st).owned
        = st.owned + (l.map (fun e => min (c.get_quantity e.1) e.2)).sum := by
  intro l
  induction l with
  | nil => intro st; simp
  | cons e l ih =>
      intro st
      simp only [List.foldl_cons, List.map_cons, List.sum_cons]
      rw [ih]
      unfold distStep
      by_cases h : c.get_quantity e.1 ≥ e.2 <;> simp [h] <;> omega

theorem distFoldl_missing (c : Collection) (db : RarityDB) :
    ∀ (l : List (String × Nat)) (st : DistState),
      (l.foldl (distStep c db) st).missing
        = st.missing + (l.map (fun e => e.2 - c.get_quantity e.1)).sum := by
  intro l
  induction l with
  | nil => intro st; simp
  | cons e l ih =>
      intro st
      simp only [List.foldl_cons, List.map_cons, List.sum_cons]
      rw [ih]
      unfold distStep
      by_cases h : c.get_quantity e.1 ≥ e.2 <;> simp [h] <;> omega

theorem distFoldl_list (c : Collection) (db : RarityDB) :
    ∀ (l : List (String × Nat)) (st : DistState),
      (l.foldl (distStep c db) st).missing_list
        = st.missing_list
          ++ (l.filter (fun e => c.get_quantity e.1 < e.2)).map
              (fun e => (e.1, e.2 - c.get_quantity e.1, get_card_rarity e.1 db)) := by
  intro l
  induction l with
  | nil => intro st; simp
  | cons e l ih =>
      intro st
      simp only [List.foldl_cons]
      rw [ih]
      unfold distStep
      by_cases h : c.get_quantity e.1 ≥ e.2
      · have h2 : ¬ (c.get_quantity e.1 < e.2) := by omega
        simp [h, h2, List.filter_cons]
      · have h2 : c.get_quantity e.1 < e.2 := by omega
        simp [h, h2, List.filter_cons]

theorem missing_list_char (c : Collection) (d : MetaDeck) (db : RarityDB) :
    (calculate_deck_distance c d db).missing_card_list
      = (d.cards.filter (fun e => c.get_quantity e.1 < e.2)).map
          (fun e => (e.1, e.2 - c.get_quantity e.1, get_card_rarity e.1 db)) := by
  simp [calculate_deck_distance, distFold, distFoldl_list]

theorem addToBucket_total_le (w : WildcardCost) (r : String) (n : Nat) :
    (addToBucket w r n).total ≤ w.total + n := by
  unfold addToBucket WildcardCost.total
  split_ifs <;> simp <;> omega

theorem addToBucket_total_valid (w : WildcardCost) (r : String) (n : Nat)
    (h : validRarity r) : (addToBucket w r n).total = w.total + n := by
  rcases h with h | h | h | h <;> subst h <;>
    simp [addToBucket, WildcardCost.total] <;> omega

theorem addToBucket_rare (w : WildcardCost) (n : Nat) :
    addToBucket w "rare" n = { w with rare := w.rare + n } := by
  simp [addToBucket]

theorem distFoldl_total_le (c : Collection) (db : RarityDB) :
    ∀ (l : List (String × Nat)) (st : DistState),
      (l.foldl (distStep c db) st).wildcards.total
        ≤ st.wildcards.total + (l.map (fun e => e.2 - c.get_quantity e.1)).sum := by
  intro l
  induction l with
  | nil => intro st; simp
  | cons e l ih =>
      intro st
      simp only [List.foldl_cons, List.map_cons, List.sum_cons]
      refine le_trans (ih _) ?_
      unfold distStep
      by_cases h : c.get_quantity e.1 ≥ e.2
      · simp [h]
      · simp [h]
        have := addToBucket_total_le st.wildcards (get_card_rarity e.1 db)
          (e.2 - c.get_quantity e.1)
        omega

theorem distFoldl_total_valid (c : Collection) (db : RarityDB)
    (hdb : ∀ name, validRarity (get_card_rarity name db)) :
    ∀ (l : List (String × Nat)) (st : DistState),
      (l.foldl (distStep c db) st).wildcards.total
        = st.wildcards.total + (l.map (fun e => e.2 - c.get_quantity e.1)).sum := by
  intro l
  induction l with
  | nil => intro st; simp
  | cons e l ih =>
      intro st
      simp only [List.foldl_cons, List.map_cons, List.sum_cons]
      rw [ih]
      unfold distStep
      by_cases h : c.get_quantity e.1 ≥ e.2
      · simp [h]
      · simp [h]
        rw [addToBucket_total_valid _ _ _ (hdb e.1)]
        omega

theorem distFoldl_wildcards_all_rare (c : Collection) (db : RarityDB) :
    ∀ (l : List (String × Nat)) (st : DistState),
      (∀ e ∈ l, get_card_rarity e.1 db = "rare") →
      (l.foldl (distStep c db) st).wildcards
        = { st.wildcards with
            rare := st.wildcards.rare + (l.map (fun e => e.2 - c.get_quantity e.1)).sum } := by
  intro l
  induction l with
  | nil => intro st _; simp
  | cons e l ih =>
      intro st hl
      simp only [List.foldl_cons, List.map_cons, List.sum_cons]
      rw [ih _ (fun x hx => hl x (List.mem_cons_of_mem _ hx))]
      unfold distStep
      by_cases h : c.get_quantity e.1 ≥ e.2
      · have h0 : e.2 - c.get_quantity e.1 = 0 := by omega
        simp [h, h0]
      · have hr := hl e (List.mem_cons_self _ _)
        simp [h, hr, addToBucket_rare]
        omega

/-- C1: for every collection, deck and rarity database,
calculate_deck_distance returns owned_cards equal to the sum over the
maindeck of min(owned, required), missing_cards equal to the sum of
shortfalls, a missing_card_list holding exactly the deck cards with a
positive shortfall paired with shortfall and looked-up rarity, and
collection entries outside the maindeck have no effect on any output
field. -/
theorem calculate_deck_distance_spec (c : Collection) (d : MetaDeck) (db : RarityDB) :
    (calculate_deck_distance c d db).owned_cards
        = (d.cards.map (fun e => min (c.get_quantity e.1) e.2)).sum
    ∧ (calculate_deck_distance c d db).missing_cards
        = (d.cards.map (fun e => e.2 - c.get_quantity e.1)).sum
    ∧ (calculate_deck_distance c d db).missing_card_list
        = (d.cards.filter (fun e => c.get_quantity e.1 < e.2)).map
            (fun e => (e.1, e.2 - c.get_quantity e.1, get_card_rarity e.1 db))
    ∧ (∀ c2 : Collection,
        (∀ n ∈ d.cards.map (fun e => e.1), c2.get_quantity n = c.get_quantity n) →
        calculate_deck_distance c2 d db = calculate_deck_distance c d db) := by
  refine ⟨?_, ?_, missing_list_char c d db, ?_⟩
  · simp [calculate_deck_distance, distFold, distFoldl_owned]
  · simp [calculate_deck_distance, distFold, distFoldl_missing]
  · intro c2 hagree
    have hstep : ∀ (l : List (String × Nat)),
        (∀ n ∈ l.map (fun e => e.1), c2.get_quantity n = c.get_quantity n) →
        ∀ st, l.foldl (distStep c2 db) st = l.foldl (distStep c db) st := by
      intro l
      induction l with
      | nil => intro _ st; simp
      | cons e l ih =>
          intro hl st
          simp only [List.foldl_cons]
          have he : c2.get_quantity e.1 = c.get_quantity e.1 :=
            hl e.1 (by simp)
          have hstep1 : distStep c2 db st e = distStep c db st e := by
            unfold distStep
            rw [he]
          rw [hstep1, ih (fun n hn => hl n (by simp [hn]))]
    unfold calculate_deck_distance distFold
    rw [hstep d.cards hagree]

/-- C1 witness: the characterization evaluated on the sample aggro deck
with the partial collection, and invariance under adding three copies
of Counterspell, a card the deck does not play. -/
theorem calculate_deck_distance_spec_witness :
    (calculate_deck_distance cPartial dAggro dbSample).owned_cards
        = (dAggro.cards.map (fun e => min (cPartial.get_quantity e.1) e.2)).sum
    ∧ (calculate_deck_distance cPartial dAggro dbSample).missing_cards
        = (dAggro.cards.map (fun e => e.2 - cPartial.get_quantity e.1)).sum
    ∧ (calculate_deck_distance cPartial dAggro dbSample).missing_card_list
        = (dAggro.cards.filter (fun e => cPartial.get_quantity e.1 < e.2)).map
            (fun e => (e.1, e.2 - cPartial.get_quantity e.1, get_card_rarity e.1 dbSample))
    ∧ calculate_deck_distance cExtra dAggro dbSample
        = calculate_deck_distance cPartial dAggro dbSample := by
  obtain ⟨h1, h2, h3, h4⟩ := calculate_deck_distance_spec cPartial dAggro dbSample
  exact ⟨h1, h2, h3, h4 cExtra (by decide)⟩

/-- C2: for every collection, deck and rarity database whose entries
are valid rarity strings, the four wildcard buckets of the result sum
to missing_cards. -/
theorem wildcard_split_eq_missing (c : Collection) (d : MetaDeck) (db : RarityDB)
    (hdb : ∀ name r, db name = some r → validRarity r) :
    (calculate_deck_distance c d db).wildcard_cost.common
      + (calculate_deck_distance c d db).wildcard_cost.uncommon
      + (calculate_deck_distance c d db).wildcard_cost.rare
      + (calculate_deck_distance c d db).wildcard_cost.mythic
      = (calculate_deck_distance c d db).missing_cards := by
  have hval : ∀ name, validRarity (get_card_rarity name db) := by
    intro name
    unfold get_card_rarity
    cases h : db name with
    | none => simp [validRarity]
    | some r => simpa using hdb name r h
  have h1 := distFoldl_total_valid c db hval d.cards ⟨0, 0, [], ⟨0, 0, 0, 0⟩⟩
  have h2 := distFoldl_missing c db d.cards ⟨0, 0, [], ⟨0, 0, 0, 0⟩⟩
  simp only [WildcardCost.total] at h1
  simp at h1 h2
  simp only [calculate_deck_distance, distFold]
  omega

/-- C2 witness: the wildcard split evaluated on the sample aggro deck,
partial collection and sample rarity database. -/
theorem wildcard_split_eq_missing_witness :
    (calculate_deck_distance cPartial dAggro dbSample).wildcard_cost.common
      + (calculate_deck_distance cPartial dAggro dbSample).wildcard_cost.uncommon
      + (calculate_deck_distance cPartial dAggro dbSample).wildcard_cost.rare
      + (calculate_deck_distance cPartial dAggro dbSample).wildcard_cost.mythic
      = (calculate_deck_distance cPartial dAggro dbSample).missing_cards := by
  apply wildcard_split_eq_missing cPartial dAggro dbSample
  intro name r h
  simp only [dbSample] at h
  split_ifs at h with h1 h2 h3 <;> simp_all [validRarity]

/-- C3: growing the owned collection pointwise never increases
missing_cards and never decreases completion_percentage. -/
theorem deck_distance_monotone (c1 c2 : Collection) (d : MetaDeck) (db : RarityDB)
    (h : ∀ n, c1.get_quantity n ≤ c2.get_quantity n) :
    (calculate_deck_distance c2 d db).missing_cards
      ≤ (calculate_deck_distance c1 d db).missing_cards
    ∧ (calculate_deck_distance c1 d db).completion_percentage
      ≤ (calculate_deck_distance c2 d db).completion_percentage := by
  have howned : (distFold c1 db d).owned ≤ (distFold c2 db d).owned := by
    unfold distFold
    rw [distFoldl_owned, distFoldl_owned]
    simp only [Nat.zero_add]
    exact List.sum_le_sum (fun e _ => min_le_min (h e.1) le_rfl)
  constructor
  · simp only [calculate_deck_distance, distFold]
    rw [distFoldl_missing, distFoldl_missing]
    simp only [Nat.zero_add]
    exact List.sum_le_sum (fun e _ => by
      have := h e.1; omega)
  · simp only [calculate_deck_distance]
    by_cases hT : d.maindeck_count > 0
    · simp only [hT, if_true, if_pos]
      have hTpos : (0 : ℚ) < (d.maindeck_count : ℚ) := by exact_mod_cast hT
      exact (div_le_div_iff_of_pos_right hTpos).mpr (by exact_mod_cast howned)
    · simp [hT]

/-- C3 witness: monotonicity evaluated between the empty collection and
the partial collection on the sample aggro deck. -/
theorem deck_distance_monotone_witness :
    (calculate_deck_distance cPartial dAggro dbSample).missing_cards
      ≤ (calculate_deck_distance cZero dAggro dbSample).missing_cards
    ∧ (calculate_deck_distance cZero dAggro dbSample).completion_percentage
      ≤ (calculate_deck_distance cPartial dAggro dbSample).completion_percentage :=
  deck_distance_monotone cZero cPartial dAggro dbSample (fun _ => Nat.zero_le _)

/-- C4: a collection holding at least the required quantity of every
maindeck card yields is_complete true and wildcard total zero. -/
theorem deck_distance_complete_of_superset (c : Collection) (d : MetaDeck) (db : RarityDB)
    (h : ∀ e ∈ d.cards, e.2 ≤ c.get_quantity e.1) :
    (calculate_deck_distance c d db).is_complete = true
    ∧ (calculate_deck_distance c d db).wildcard_cost.total = 0 := by
  have hzero : (d.cards.map (fun e => e.2 - c.get_quantity e.1)).sum = 0 := by
    apply List.sum_eq_zero
    intro x hx
    rcases List.mem_map.mp hx with ⟨e, he, rfl⟩
    have := h e he
    omega
  have hm := distFoldl_missing c db d.cards ⟨0, 0, [], ⟨0, 0, 0, 0⟩⟩
  have hw := distFoldl_total_le c db d.cards ⟨0, 0, [], ⟨0, 0, 0, 0⟩⟩
  simp [WildcardCost.total] at hm hw
  rw [hzero] at hm hw
  constructor
  · simp only [calculate_deck_distance, distFold, DeckDistance.is_complete]
    simpa using hm
  · simp only [calculate_deck_distance, distFold, WildcardCost.total]
    omega

/-- C4 witness: completeness evaluated on the full sample collection
and aggro deck. -/
theorem deck_distance_complete_of_superset_witness :
    (calculate_deck_distance cFull dAggro dbSample).is_complete = true
    ∧ (calculate_deck_distance cFull dAggro dbSample).wildcard_cost.total = 0 :=
  deck_distance_complete_of_superset cFull dAggro dbSample (by decide)

/-- C5: completion_percentage is 0 for an empty maindeck, and equals
owned_cards divided by the sum of required quantities otherwise. -/
theorem completion_percentage_spec (c : Collection) (d : MetaDeck) (db : RarityDB) :
    (d.maindeck_count = 0 → (calculate_deck_distance c d db).completion_percentage = 0)
    ∧ (d.maindeck_count ≠ 0 →
        (calculate_deck_distance c d db).completion_percentage
          = ((calculate_deck_distance c d db).owned_cards : ℚ)
              / ((((d.cards.map (fun e => e.2)).sum : ℕ)) : ℚ)) := by
  constructor
  · intro h0
    simp [calculate_deck_distance, h0]
  · intro hne
    have hT : d.maindeck_count > 0 := Nat.pos_of_ne_zero hne
    simp only [calculate_deck_distance, hT, if_true, if_pos]
    rfl

/-- C5 witness: completion evaluated on the empty deck (0) and on the
sample aggro deck (owned over the 28-card requirement). -/
theorem completion_percentage_spec_witness :
    (calculate_deck_distance cPartial dEmpty dbSample).completion_percentage = 0
    ∧ (calculate_deck_distance cPartial dAggro dbSample).completion_percentage
        = ((calculate_deck_distance cPartial dAggro dbSample).owned_cards : ℚ)
            / ((((dAggro.cards.map (fun e => e.2)).sum : ℕ)) : ℚ) :=
  ⟨(completion_percentage_spec cPartial dEmpty dbSample).1 (by decide),
    (completion_percentage_spec cPartial dAggro dbSample).2 (by decide)⟩

/-- C6: a card name absent from the rarity database resolves to "rare"
in get_card_rarity, in every missing_card_list entry for such a card,
and in the wildcard bucket assignment (with an all-missing database the
whole shortfall lands in the rare bucket); the calculator itself is a
total function of its inputs. -/
theorem missing_rarity_defaults_to_rare (c : Collection) (d : MetaDeck) (db : RarityDB) :
    (∀ name, db name = none → get_card_rarity name db = "rare")
    ∧ (∀ name q r, db name = none →
        (name, q, r) ∈ (calculate_deck_distance c d db).missing_card_list → r = "rare")
    ∧ ((∀ e ∈ d.cards, db e.1 = none) →
        (calculate_deck_distance c d db).wildcard_cost
          = ⟨0, 0, (calculate_deck_distance c d db).missing_cards, 0⟩) := by
  refine ⟨?_, ?_, ?_⟩
  · intro name h
    simp [get_card_rarity, h]
  · intro name q r hnone hmem
    rw [missing_list_char] at hmem
    rcases List.mem_map.mp hmem with ⟨e, he, heq⟩
    have hr : get_card_rarity e.1 db = r := congrArg (fun t => t.2.2) heq
    have hn : e.1 = name := congrArg (fun t => t.1) heq
    rw [← hr, hn]
    simp [get_card_rarity, hnone]
  · intro hall
    have hrare : ∀ e ∈ d.cards, get_card_rarity e.1 db = "rare" := by
      intro e he
      simp [get_card_rarity, hall e he]
    have hw := distFoldl_wildcards_all_rare c db d.cards ⟨0, 0, [], ⟨0, 0, 0, 0⟩⟩ hrare
    have hm := distFoldl_missing c db d.cards ⟨0, 0, [], ⟨0, 0, 0, 0⟩⟩
    simp at hw hm
    simp only [calculate_deck_distance, distFold]
    rw [hw, hm]

/-- C6 witness: the rare default evaluated on a card missing from the
empty rarity database, and the whole shortfall of the sample deck
landing in the rare bucket under that database. -/
theorem missing_rarity_defaults_to_rare_witness :
    get_card_rarity "Sheoldred, the Apocalypse" dbNone = "rare"
    ∧ (calculate_deck_distance cPartial dAggro dbNone).wildcard_cost
        = ⟨0, 0, (calculate_deck_distance cPartial dAggro dbNone).missing_cards, 0⟩ := by
  obtain ⟨h1, _, h3⟩ := missing_rarity_defaults_to_rare cPartial dAggro dbNone
  exact ⟨h1 _ rfl, h3 (by decide)⟩

/-- C7: weighted_cost equals the fixed-weight combination 0.1 per
common, 0.25 per uncommon, 1.0 per rare and 4.0 per mythic. -/
theorem weighted_cost_formula (w : WildcardCost) :
    w.weighted_cost
      = w.common * (0.1 : ℚ) + w.uncommon * (0.25 : ℚ)
          + w.rare * (1.0 : ℚ) + w.mythic * (4.0 : ℚ) := rfl

/-- C10: owned_cards plus missing_cards always equals the maindeck
count of the deck. -/
theorem owned_add_missing_eq_maindeck (c : Collection) (d : MetaDeck) (db : RarityDB) :
    (calculate_deck_distance c d db).owned_cards
      + (calculate_deck_distance c d db).missing_cards = d.maindeck_count := by
  have ho := distFoldl_owned c db d.cards ⟨0, 0, [], ⟨0, 0, 0, 0⟩⟩
  have hm := distFoldl_missing c db d.cards ⟨0, 0, [], ⟨0, 0, 0, 0⟩⟩
  simp at ho hm
  simp only [calculate_deck_distance, distFold]
  rw [ho, hm]
  unfold MetaDeck.maindeck_count
  induction d.cards with
  | nil => simp
  | cons e l ih =>
      simp only [List.map_cons, List.sum_cons]
      omega

/-- C8 counterexample: under the spec-modelled transforms a light
underperform stress pulls the above-range 30-land observed value back
inside its 22 to 26 typical range, the health improves from warning
to healthy and the fragility strictly drops, refuting the claim that
stressed_fragility is always at least original_fragility. -/
theorem stress_fragility_monotone_counterexample :
    (apply_stress asetCX scnCX).stressed_fragility
      < (apply_stress asetCX scnCX).original_fragility
    ∧ (apply_stress asetCX scnCX).fragility_change < 0 := by
  constructor <;>
    · simp [apply_stress, asetCX, scnCX, affects, stressed_value_of, stressed_health_of,
        health_of, fragility_of, healthWeight]
      norm_num

theorem stressed_value_le_observed (scn : StressScenario) (a : Assumption)
    (h0 : 0 ≤ a.observed_value) (hi : 0 < scn.intensity) :
    stressed_value_of scn a ≤ a.observed_value := by
  rcases scn with ⟨ty, target, intensity⟩
  simp only at hi
  cases ty with
  | missing =>
      show (if (target == "all") = true then 0
        else max (a.observed_value - ((⌈(4 : ℚ) * intensity⌉ : ℤ) : ℚ)) 0)
          ≤ a.observed_value
      by_cases ht : (target == "all") = true
      · simp [ht, h0]
      · simp [ht]
        exact ⟨Int.ceil_nonneg (by positivity), h0⟩
  | underperform =>
      show a.observed_value * (1 - intensity) ≤ a.observed_value
      nlinarith
  | delayed =>
      show a.observed_value * (1 - intensity) ≤ a.observed_value
      nlinarith
  | hostile_meta =>
      show a.observed_value * (1 - intensity) ≤ a.observed_value
      nlinarith

theorem health_of_severity_mono (v v2 : ℚ) (range : ℚ × ℚ)
    (h1 : v2 ≤ v) (h2 : v ≤ range.2) :
    (health_of v range).severity ≤ (health_of v2 range).severity := by
  unfold health_of
  split_ifs <;> simp_all [Health.severity] <;> linarith

theorem healthWeight_mono (h h2 : Health) (hs : h.severity ≤ h2.severity) :
    healthWeight h ≤ healthWeight h2 := by
  cases h <;> cases h2 <;> simp_all [Health.severity, healthWeight] <;> norm_num

theorem stressed_health_severity_mono (scn : StressScenario) (a : Assumption)
    (h0 : 0 ≤ a.observed_value) (h2 : a.observed_value ≤ a.typical_range.2)
    (hi : 0 < scn.intensity) :
    (health_of a.observed_value a.typical_range).severity
      ≤ (stressed_health_of scn a).severity := by
  unfold stressed_health_of
  by_cases ha : affects scn a
  · simp only [ha, if_true, if_pos]
    exact health_of_severity_mono a.observed_value (stressed_value_of scn a)
      a.typical_range (stressed_value_le_observed scn a h0 hi) h2
  · simp [ha]

/-- C8 amended: for every assumption set whose observed values are
non-negative and do not exceed the upper bound of their typical range,
and every scenario with intensity in (0, 1], stress never improves
fragility: stressed_fragility is at least original_fragility and
fragility_change is non-negative. -/
theorem stress_fragility_monotone (aset : AssumptionSet) (scn : StressScenario)
    (hvals : ∀ a ∈ aset.assumptions,
      0 ≤ a.observed_value ∧ a.observed_value ≤ a.typical_range.2)
    (hint : 0 < scn.intensity ∧ scn.intensity ≤ 1) :
    (apply_stress aset scn).original_fragility
      ≤ (apply_stress aset scn).stressed_fragility
    ∧ 0 ≤ (apply_stress aset scn).fragility_change := by
  have key : fragility_of
      (aset.assumptions.map (fun a => health_of a.observed_value a.typical_range))
      ≤ fragility_of (aset.assumptions.map (fun a => stressed_health_of scn a)) := by
    unfold fragility_of
    simp only [List.length_map]
    by_cases hlen : aset.assumptions.length = 0
    · simp [hlen]
    · simp only [hlen, if_false, if_neg, not_false_iff]
      apply min_le_min le_rfl
      have hpos : (0 : ℚ) < (aset.assumptions.length : ℚ) := by
        exact_mod_cast Nat.pos_of_ne_zero hlen
      apply (div_le_div_iff_of_pos_right hpos).mpr
      simp only [List.map_map]
      apply List.sum_le_sum
      intro a ha
      simp only [Function.comp]
      apply healthWeight_mono
      exact stressed_health_severity_mono scn a (hvals a ha).1 (hvals a ha).2 hint.1
  constructor
  · exact key
  · show (0 : ℚ) ≤ (apply_stress aset scn).stressed_fragility
      - (apply_stress aset scn).original_fragility
    have : (apply_stress aset scn).original_fragility
        ≤ (apply_stress aset scn).stressed_fragility := key
    linarith

/-- C8 amended witness: the monotone bound evaluated on a healthy
in-range land-count assumption under a heavy underperform scenario. -/
theorem stress_fragility_monotone_witness :
    (apply_stress asetW8 scnW8).original_fragility
      ≤ (apply_stress asetW8 scnW8).stressed_fragility
    ∧ 0 ≤ (apply_stress asetW8 scnW8).fragility_change :=
  stress_fragility_monotone asetW8 scnW8
    (by
      intro a ha
      simp only [asetW8, List.mem_singleton] at ha
      subst ha
      norm_num)
    (by constructor <;> norm_num [scnW8])

theorem foldlBest_spec :
    ∀ (xs : List (StressScenario × StressResult)) (x : StressScenario × StressResult),
      (xs.foldl (fun best p =>
          if best.2.fragility_change < p.2.fragility_change then p else best) x) ∈ x :: xs
      ∧ x.2.fragility_change ≤ (xs.foldl (fun best p =>
          if best.2.fragility_change < p.2.fragility_change then p else best) x).2.fragility_change
      ∧ ∀ q ∈ xs, q.2.fragility_change ≤ (xs.foldl (fun best p =>
          if best.2.fragility_change < p.2.fragility_change then p else best) x).2.fragility_change := by
  intro xs
  induction xs with
  | nil => intro x; simp
  | cons y ys ih =>
      intro x
      simp only [List.foldl_cons]
      obtain ⟨hmem, hbase, hall⟩ :=
        ih (if x.2.fragility_change < y.2.fragility_change then y else x)
      have hstep : x.2.fragility_change
            ≤ (if x.2.fragility_change < y.2.fragility_change then y else x).2.fragility_change
          ∧ y.2.fragility_change
            ≤ (if x.2.fragility_change < y.2.fragility_change then y else x).2.fragility_change := by
        by_cases hxy : x.2.fragility_change < y.2.fragility_change
        · simp only [hxy, if_true, if_pos]
          exact ⟨le_of_lt hxy, le_rfl⟩
        · simp only [hxy, if_false, if_neg, not_false_iff]
          exact ⟨le_rfl, le_of_not_lt hxy⟩
      refine ⟨?_, ?_, ?_⟩
      · rcases List.mem_cons.mp hmem with h | h
        · by_cases hxy : x.2.fragility_change < y.2.fragility_change
          · rw [h]; simp [hxy]
          · rw [h]; simp [hxy]
        · simp [h]
      · exact le_trans hstep.1 hbase
      · intro q hq
        rcases List.mem_cons.mp hq with h | h
        · rw [h]; exact le_trans hstep.2 hbase
        · exact hall q h

theorem pickBest_spec (l : List (StressScenario × StressResult))
    (p : StressScenario × StressResult) (h : pickBest l = some p) :
    p ∈ l ∧ ∀ q ∈ l, q.2.fragility_change ≤ p.2.fragility_change := by
  cases l with
  | nil => simp [pickBest] at h
  | cons x xs =>
      simp only [pickBest, Option.some_inj] at h
      obtain ⟨hmem, hbase, hall⟩ := foldlBest_spec xs x
      rw [h] at hmem hbase hall
      refine ⟨hmem, ?_⟩
      intro q hq
      rcases List.mem_cons.mp hq with hh | hh
      · rw [hh]; exact hbase
      · exact hall q hh

theorem pickBest_eq_none (l : List (StressScenario × StressResult)) :
    pickBest l = none ↔ l = [] := by
  cases l with
  | nil => simp [pickBest]
  | cons x xs => simp [pickBest]

/-- C9: find_breaking_point performs the two-tier selection: when some
scenario of the catalog violates a belief, it reports a violating
scenario whose fragility_change is maximal among the violating ones,
together with its violated belief; when no scenario violates any
belief, it reports "None identified", and on a non-empty catalog the
selected scenario carries the single highest fragility_change. -/
theorem find_breaking_point_two_tier (aset : AssumptionSet)
    (catalog : List StressScenario) :
    ((∃ s ∈ catalog, (apply_stress aset s).assumption_violated = true) →
      ∃ s ∈ catalog, (apply_stress aset s).assumption_violated = true
        ∧ (find_breaking_point aset catalog).failing_scenario = some s
        ∧ (find_breaking_point aset catalog).most_vulnerable_belief
            = (apply_stress aset s).violated_belief
        ∧ ∀ s2 ∈ catalog, (apply_stress aset s2).assumption_violated = true →
            (apply_stress aset s2).fragility_change
              ≤ (apply_stress aset s).fragility_change)
    ∧ ((∀ s ∈ catalog, (apply_stress aset s).assumption_violated = false) →
        (find_breaking_point aset catalog).most_vulnerable_belief = "None identified"
        ∧ (catalog ≠ [] →
            ∃ s ∈ catalog, (find_breaking_point aset catalog).failing_scenario = some s
              ∧ ∀ s2 ∈ catalog, (apply_stress aset s2).fragility_change
                  ≤ (apply_stress aset s).fragility_change)) := by
  constructor
  · rintro ⟨s0, hs0mem, hs0viol⟩
    have hmemf : (s0, apply_stress aset s0)
        ∈ (catalog.map (fun s => (s, apply_stress aset s))).filter
            (fun p => p.2.assumption_violated) := by
      apply List.mem_filter.mpr
      exact ⟨List.mem_map.mpr ⟨s0, hs0mem, rfl⟩, hs0viol⟩
    cases hpick : pickBest ((catalog.map (fun s => (s, apply_stress aset s))).filter
        (fun p => p.2.assumption_violated)) with
    | none =>
        rw [pickBest_eq_none] at hpick
        rw [hpick] at hmemf
        simp at hmemf
    | some p =>
        obtain ⟨hpmem, hpmax⟩ := pickBest_spec _ p hpick
        obtain ⟨hpres, hpv⟩ := List.mem_filter.mp hpmem
        obtain ⟨s, hsmem, hseq⟩ := List.mem_map.mp hpres
        have hfb : find_breaking_point aset catalog =
            { most_vulnerable_belief := p.2.violated_belief
              failing_scenario := some p.1
              exploration_insight := "A belief is violated under this scenario" } := by
          unfold find_breaking_point
          rw [hpick]
        refine ⟨s, hsmem, ?_, ?_, ?_, ?_⟩
        · rw [← hseq] at hpv
          exact hpv
        · rw [hfb, ← hseq]
        · rw [hfb, ← hseq]
        · intro s2 hs2mem hs2viol
          have hmem2 : (s2, apply_stress aset s2)
              ∈ (catalog.map (fun s => (s, apply_stress aset s))).filter
                  (fun p => p.2.assumption_violated) := by
            apply List.mem_filter.mpr
            exact ⟨List.mem_map.mpr ⟨s2, hs2mem, rfl⟩, hs2viol⟩
          have := hpmax _ hmem2
          rw [← hseq] at this
          exact this
  · intro hall
    have hfilnil : (catalog.map (fun s => (s, apply_stress aset s))).filter
        (fun p => p.2.assumption_violated) = [] := by
      rw [List.filter_eq_nil_iff]
      intro p hp
      obtain ⟨s, hsmem, rfl⟩ := List.mem_map.mp hp
      simp [hall s hsmem]
    have hpicknone : pickBest ((catalog.map (fun s => (s, apply_stress aset s))).filter
        (fun p => p.2.assumption_violated)) = none := by
      rw [pickBest_eq_none]
      exact hfilnil
    by_cases hcat : catalog = []
    · subst hcat
      constructor
      · simp [find_breaking_point, pickBest]
      · intro h
        exact absurd rfl h
    · cases hpick2 : pickBest (catalog.map (fun s => (s, apply_stress aset s))) with
      | none =>
          rw [pickBest_eq_none] at hpick2
          rw [List.map_eq_nil_iff] at hpick2
          exact absurd hpick2 hcat
      | some p =>
          obtain ⟨hpmem, hpmax⟩ := pickBest_spec _ p hpick2
          obtain ⟨s, hsmem, hseq⟩ := List.mem_map.mp hpmem
          have hfb : find_breaking_point aset catalog =
              { most_vulnerable_belief := "None identified"
                failing_scenario := some p.1
                exploration_insight :=
                  "No belief violated; highest fragility increase reported" } := by
            unfold find_breaking_point
            rw [hpicknone, hpick2]
          constructor
          · rw [hfb]
          · intro _
            refine ⟨s, hsmem, ?_, ?_⟩
            · rw [hfb, ← hseq]
            · intro s2 hs2mem
              have := hpmax (s2, apply_stress aset s2)
                (List.mem_map.mpr ⟨s2, hs2mem, rfl⟩)
              rw [← hseq] at this
              exact this

theorem apply_stress_asetW9_violated :
    (apply_stress asetW9 scnW9).assumption_violated = true := by
  simp [apply_stress, asetW9, scnW9, affects, stressed_value_of, stressed_health_of,
    health_of, belief_violated_of, violation_threshold, Health.severity]

/-- C9 witness: the two-tier selection evaluated on a one-scenario
catalog whose full-intensity missing stress violates the key-card
belief of the sample assumption set. -/
theorem find_breaking_point_two_tier_witness :
    ∃ s ∈ [scnW9], (apply_stress asetW9 s).assumption_violated = true
      ∧ (find_breaking_point asetW9 [scnW9]).failing_scenario = some s
      ∧ (find_breaking_point asetW9 [scnW9]).most_vulnerable_belief
          = (apply_stress asetW9 s).violated_belief
      ∧ ∀ s2 ∈ [scnW9], (apply_stress asetW9 s2).assumption_violated = true →
          (apply_stress asetW9 s2).fragility_change
            ≤ (apply_stress asetW9 s).fragility_change :=
  (find_breaking_point_two_tier asetW9 [scnW9]).1
    ⟨scnW9, List.mem_singleton.mpr rfl, apply_stress_asetW9_violated⟩
